import Mathlib

/-
Verification of the deformable-terrain tile system declared in
`Unreal/CarlaUE4/Plugins/Carla/Source/Carla/Vehicle/CustomTerrainPhysicsComponent.h`.
The repository ships only the header; every function body below is a shallow
embedding reconstructed from the specification document (each such definition
carries a doc comment starting with "Modelled from the spec:").  Machine floats
and doubles (FDVector, float) are embedded as exact rationals.
-/

namespace Carla

/-- Modelled from the spec: FDVector, a double-precision 3D world-space vector,
embedded with exact rational coordinates. -/
structure FDVector where
  X : ℚ
  Y : ℚ
  Z : ℚ
deriving DecidableEq, Repr

/-- Squared Euclidean distance between two FDVectors. -/
def dist2 (a b : FDVector) : ℚ :=
  (a.X - b.X) * (a.X - b.X) + (a.Y - b.Y) * (a.Y - b.Y) + (a.Z - b.Z) * (a.Z - b.Z)

/-- Modelled from the spec: one whitespace-separated field of the textual tile
format.  The spec stipulates a fixed, round-trippable numeric format, so a
parsable field is identified with its exact numeric value; `bad` stands for an
unparsable token. -/
inductive RawField where
  | num (q : ℚ)
  | bad
deriving DecidableEq, Repr

/-- FParticle: a soil particle with a position (in m) and a radius. -/
structure FParticle where
  Position : FDVector
  Radius : ℚ
deriving DecidableEq, Repr

/-- Modelled from the spec: FParticle::ToString emits the single line
"XValue YValue ZValue RadiusValue \n"; the line is embedded as its list of
fields. -/
def FParticle.toString (p : FParticle) : List RawField :=
  [RawField.num p.Position.X, RawField.num p.Position.Y,
   RawField.num p.Position.Z, RawField.num p.Radius]

/-- Modelled from the spec: FParticle::ModifyDataFromString parses one line of
the format "XValue YValue ZValue RadiusValue \n"; a line with the wrong field
count or an unparsable field is a parse failure (`none`). -/
def FParticle.modifyDataFromString : List RawField → Option FParticle
  | [RawField.num x, RawField.num y, RawField.num z, RawField.num r] =>
      some { Position := ⟨x, y, z⟩, Radius := r }
  | _ => none

/-- FHeightMapData: a raster of elevation samples over a rectangular world
region (world size, world offset, pixel grid dimensions, flat sample buffer). -/
structure FHeightMapData where
  WorldSize : FDVector
  Offset : FDVector
  Size_X : ℕ
  Size_Y : ℕ
  Pixels : List ℚ
deriving DecidableEq, Repr

/-- Modelled from the spec: FHeightMapData::GetHeight maps a world XY
coordinate into raster pixel space using the stored size and offset, clamps
the pixel coordinate to the raster bounds, and samples the flat pixel buffer.
The raw buffer access is kept as an optional read so that in-bounds access can
be stated and proved rather than assumed. -/
def FHeightMapData.pixelIndex (h : FHeightMapData) (Position : FDVector) : ℕ :=
  min (⌊(Position.Y - h.Offset.Y) / h.WorldSize.Y * h.Size_Y⌋).toNat (h.Size_Y - 1)
      * h.Size_X
    + min (⌊(Position.X - h.Offset.X) / h.WorldSize.X * h.Size_X⌋).toNat (h.Size_X - 1)

/-- Raster sample of the clamped pixel index of a world position. -/
def FHeightMapData.getHeight? (h : FHeightMapData) (Position : FDVector) : Option ℚ :=
  h.Pixels[h.pixelIndex Position]?

/-- FDenseTile: a tile origin plus the particles it owns, in storage order. -/
structure FDenseTile where
  Particles : List FParticle
  TilePosition : FDVector
deriving DecidableEq, Repr

/-- Decidable test for "particle position lies within Euclidean distance
`Radius` of `center`", phrased on squares so it stays inside ℚ: over the
reals, dist(p, c) ≤ r holds iff 0 ≤ r and dist²(p, c) ≤ r·r. -/
def withinRadius (center : FDVector) (Radius : ℚ) (p : FDVector) : Bool :=
  decide (0 ≤ Radius ∧ dist2 p center ≤ Radius * Radius)

/-- Modelled from the spec: FDenseTile::GetParticlesInRadius is a linear scan
returning every particle whose Euclidean distance to `Position` is at most
`Radius`, in storage order. -/
def FDenseTile.getParticlesInRadius (t : FDenseTile) (Position : FDVector)
    (Radius : ℚ) : List FParticle :=
  t.Particles.filter fun p => withinRadius Position Radius p.Position

/-- Modelled from the spec: FDenseTile::ToString emits the tile origin line
"PosX PosY PosZ\n" followed by one line per particle in FParticle::ToString
format; the text is embedded as its list of lines of fields. -/
def FDenseTile.toString (t : FDenseTile) : List (List RawField) :=
  [RawField.num t.TilePosition.X, RawField.num t.TilePosition.Y,
   RawField.num t.TilePosition.Z] :: t.Particles.map FParticle.toString

/-- Parse every particle line of a tile body; any single failing line makes
the whole parse fail. -/
def parseParticleLines : List (List RawField) → Option (List FParticle)
  | [] => some []
  | l :: rest =>
      (FParticle.modifyDataFromString l).bind fun p =>
        (parseParticleLines rest).map fun ps => p :: ps

/-- Modelled from the spec: FDenseTile::ModifyDataFromString parses an origin
line of three fields followed by one particle line each; per the documented
policy the whole tile is rejected (`none`) as soon as any line is malformed,
never yielding a partially-populated tile. -/
def FDenseTile.modifyDataFromString : List (List RawField) → Option FDenseTile
  | [] => none
  | originLine :: particleLines =>
    match originLine with
    | [RawField.num x, RawField.num y, RawField.num z] =>
        (parseParticleLines particleLines).map
          fun ps => { Particles := ps, TilePosition := ⟨x, y, z⟩ }
    | _ => none

/-- Modelled from the spec: FDenseTile::InitializeTile grid-fills particles:
for each grid cell within [TileOrigin, TileEnd) spaced by `ParticleSize` in X
and Y, and for each depth layer spaced by `ParticleSize` from the
heightmap-sampled surface down to `Depth`, one particle of radius
`ParticleSize / 2` is appended; the tile origin is recorded. -/
def FDenseTile.initTile (ParticleSize Depth : ℚ) (TileOrigin TileEnd : FDVector)
    (HeightMap : FHeightMapData) : FDenseTile :=
  let nx := (⌈(TileEnd.X - TileOrigin.X) / ParticleSize⌉).toNat
  let ny := (⌈(TileEnd.Y - TileOrigin.Y) / ParticleSize⌉).toNat
  let nz := (⌈Depth / ParticleSize⌉).toNat
  let ps := (List.range nx).flatMap fun i =>
    (List.range ny).flatMap fun j =>
      let x := TileOrigin.X + (i : ℚ) * ParticleSize
      let y := TileOrigin.Y + (j : ℚ) * ParticleSize
      let surface := (HeightMap.getHeight? ⟨x, y, 0⟩).getD 0
      (List.range nz).map fun k =>
        ({ Position := ⟨x, y, surface - (k : ℚ) * ParticleSize⟩,
           Radius := ParticleSize / 2 } : FParticle)
  { Particles := ps, TilePosition := TileOrigin }

/-- Modelled from the spec: the shared "requested focus" value recorded by
Update for the StreamingWorker — the focus position and the two radii. -/
structure Focus where
  Position : FDVector
  RadiusX : ℚ
  RadiusY : ℚ
deriving DecidableEq, Repr

/-- Modelled from the spec: FSparseHighDetailMap.  The active map and the
write-back buffer are embedded as association lists from 64-bit tile ids
(as ℕ) to tiles; `ParticleSize` and `Depth` are the tile-generation
configuration the spec places in the map's configuration. -/
structure FSparseHighDetailMap where
  Map : List (ℕ × FDenseTile)
  PositionToUpdate : Focus
  TilesToWrite : List (ℕ × FDenseTile)
  Tile0Position : FDVector
  TileSize : ℚ
  ParticleSize : ℚ
  Depth : ℚ
  Heightmap : FHeightMapData
deriving DecidableEq, Repr

/-- Modelled from the spec: GetTileId packs two 32-bit tile coordinates into
one 64-bit key (high word X, low word Y); 64-bit and 32-bit machine words are
embedded as ℕ reduced mod 2^32. -/
def getTileId (Tile_X Tile_Y : ℕ) : ℕ :=
  Tile_X % 2 ^ 32 * 2 ^ 32 + Tile_Y % 2 ^ 32

/-- Packing of a signed tile-coordinate pair (as produced by GetVectorTileId)
into a 64-bit tile id, following the uint32 wrap-around conversion. -/
def idOfCoord (c : ℤ × ℤ) : ℕ :=
  (c.1 % 2 ^ 32).toNat * 2 ^ 32 + (c.2 % 2 ^ 32).toNat

/-- Modelled from the spec: GetTilePosition unpacks a tile id into its two
32-bit coordinates and scales by the tile edge length, the exact inverse of
the forward mapping. -/
def FSparseHighDetailMap.getTilePosition (s : FSparseHighDetailMap)
    (TileId : ℕ) : FDVector :=
  ⟨(TileId / 2 ^ 32 : ℕ) * s.TileSize, (TileId % 2 ^ 32 : ℕ) * s.TileSize, 0⟩

/-- Modelled from the spec: GetVectorTileId converts a world position to tile
coordinates by dividing by the tile edge length and flooring. -/
def FSparseHighDetailMap.getVectorTileId (s : FSparseHighDetailMap)
    (Position : FDVector) : ℤ × ℤ :=
  (⌊Position.X / s.TileSize⌋, ⌊Position.Y / s.TileSize⌋)

/-- Association-list lookup of a tile id in an active map or write-back
buffer. -/
def findTile : List (ℕ × FDenseTile) → ℕ → Option FDenseTile
  | [], _ => none
  | (k, t) :: rest, i => if k = i then some t else findTile rest i

/-- Keys (tile ids) of an association list of tiles. -/
def tileKeys (m : List (ℕ × FDenseTile)) : List ℕ :=
  m.map Prod.fst

/-- Modelled from the spec: InitializeRegion constructs a new tile spanning
the world-space square of the given tile id, seeded from the HeightField,
inserts it into the active map, and returns it. -/
def FSparseHighDetailMap.initRegion (s : FSparseHighDetailMap) (TileId : ℕ) :
    FSparseHighDetailMap × FDenseTile :=
  let origin := s.getTilePosition TileId
  let tileEnd : FDVector := ⟨origin.X + s.TileSize, origin.Y + s.TileSize, origin.Z⟩
  let t := FDenseTile.initTile s.ParticleSize s.Depth origin tileEnd s.Heightmap
  ({ s with Map := (TileId, t) :: s.Map }, t)

/-- Modelled from the spec: GetTile returns the tile at the given id,
creating and inserting it via InitializeRegion when absent (read-or-create,
never a pure read). -/
def FSparseHighDetailMap.getTile (s : FSparseHighDetailMap) (TileId : ℕ) :
    FSparseHighDetailMap × FDenseTile :=
  match findTile s.Map TileId with
  | some t => (s, t)
  | none => s.initRegion TileId

/-- Closed integer interval [lo, hi] as a list. -/
def intRange (lo hi : ℤ) : List ℤ :=
  (List.range (hi + 1 - lo).toNat).map fun n => lo + n

/-- Modelled from the spec: the axis-aligned window of tile coordinates
within RadiusX × RadiusY of a world position — all coordinate pairs between
the tile coordinates of the two window corners. -/
def FSparseHighDetailMap.windowCoords (s : FSparseHighDetailMap)
    (Position : FDVector) (RadiusX RadiusY : ℚ) : List (ℤ × ℤ) :=
  let lo := s.getVectorTileId ⟨Position.X - RadiusX, Position.Y - RadiusY, Position.Z⟩
  let hi := s.getVectorTileId ⟨Position.X + RadiusX, Position.Y + RadiusY, Position.Z⟩
  (intRange lo.1 hi.1).flatMap fun cx =>
    (intRange lo.2 hi.2).map fun cy => (cx, cy)

/-- Tile ids of the window of a LoadTilesAtPosition call. -/
def FSparseHighDetailMap.windowIds (s : FSparseHighDetailMap)
    (Position : FDVector) (RadiusX RadiusY : ℚ) : List ℕ :=
  (s.windowCoords Position RadiusX RadiusY).map idOfCoord

/-- Modelled from the spec: LoadTilesAtPosition computes the window of tile
ids around the position, ensures every tile id of the window is in the active
map (via GetTile, creating as needed), then removes every active tile outside
the window and appends it to the write-back buffer. -/
def FSparseHighDetailMap.loadTilesAtPosition (s : FSparseHighDetailMap)
    (Position : FDVector) (RadiusX RadiusY : ℚ) : FSparseHighDetailMap :=
  let ids := s.windowIds Position RadiusX RadiusY
  let s1 := ids.foldl (fun acc i => (acc.getTile i).1) s
  { s1 with
    Map := s1.Map.filter fun kv => decide (kv.1 ∈ ids),
    TilesToWrite := s1.TilesToWrite ++ (s1.Map.filter fun kv => ! decide (kv.1 ∈ ids)) }

/-- Modelled from the spec: Update stores the requested focus position and
radii into the shared requested-focus value and records nothing else. -/
def FSparseHighDetailMap.update (s : FSparseHighDetailMap) (Position : FDVector)
    (RadiusX RadiusY : ℚ) : FSparseHighDetailMap :=
  { s with PositionToUpdate := ⟨Position, RadiusX, RadiusY⟩ }

/-- Concrete 1×1 heightfield (elevation 0) used as witness data. -/
def sampleHeightmap : FHeightMapData :=
  { WorldSize := ⟨1, 1, 0⟩, Offset := ⟨0, 0, 0⟩, Size_X := 1, Size_Y := 1, Pixels := [0] }

/-- Concrete empty tile at the origin used as witness data. -/
def sampleTile : FDenseTile :=
  { Particles := [], TilePosition := ⟨0, 0, 0⟩ }

/-- Concrete sparse map holding one far-away tile, used as witness data. -/
def sampleMap : FSparseHighDetailMap :=
  { Map := [(idOfCoord (5, 5), sampleTile)], PositionToUpdate := ⟨⟨0, 0, 0⟩, 0, 0⟩,
    TilesToWrite := [], Tile0Position := ⟨0, 0, 0⟩, TileSize := 1,
    ParticleSize := 1, Depth := 1, Heightmap := sampleHeightmap }

/-- Concrete particle used as witness data. -/
def sampleParticle : FParticle :=
  { Position := ⟨1, 2, 3⟩, Radius := 1 / 50 }

/- ------------------------------------------------------------------ -/
/- Helper lemmas                                                       -/
/- ------------------------------------------------------------------ -/

/-- One particle line always parses back to the particle it was printed
from. -/
theorem FParticle.modify_toString (p : FParticle) :
    FParticle.modifyDataFromString p.toString = some p := rfl

/-- Printing a particle list line by line and parsing the lines back
recovers the list. -/
theorem parse_map_toString (l : List FParticle) :
    parseParticleLines (l.map FParticle.toString) = some l := by
  induction l with
  | nil => rfl
  | cons p rest ih =>
      simp [parseParticleLines, FParticle.modify_toString, ih]

/-- A line with the wrong field count or an unparsable field fails particle
parsing. -/
theorem modify_malformed_line (l : List RawField)
    (hbad : l.length ≠ 4 ∨ RawField.bad ∈ l) :
    FParticle.modifyDataFromString l = none := by
  unfold FParticle.modifyDataFromString
  split
  · exfalso; rcases hbad with h4 | hb <;> simp_all
  · rfl

/-- Parsing a list of lines fails as soon as one line fails. -/
theorem parse_eq_none_of_mem {lines : List (List RawField)} {l : List RawField}
    (hl : l ∈ lines) (hnone : FParticle.modifyDataFromString l = none) :
    parseParticleLines lines = none := by
  induction lines with
  | nil => cases hl
  | cons a rest ih =>
      rcases List.mem_cons.1 hl with rfl | hmem
      · simp [parseParticleLines, hnone]
      · cases hfa : FParticle.modifyDataFromString a <;>
          simp [parseParticleLines, hfa, ih hmem]

/-- Membership in the key list of a tile association list. -/
theorem mem_tileKeys {m : List (ℕ × FDenseTile)} {k : ℕ} :
    k ∈ tileKeys m ↔ ∃ t, (k, t) ∈ m := by
  unfold tileKeys
  constructor
  · intro h
    rcases List.mem_map.1 h with ⟨⟨k2, t⟩, hmem, rfl⟩
    exact ⟨t, hmem⟩
  · rintro ⟨t, ht⟩
    exact List.mem_map.2 ⟨(k, t), ht, rfl⟩

/-- A successful lookup witnesses key membership. -/
theorem findTile_some_mem {m : List (ℕ × FDenseTile)} {k : ℕ} {t : FDenseTile}
    (h : findTile m k = some t) : k ∈ tileKeys m := by
  induction m with
  | nil => simp [findTile] at h
  | cons a rest ih =>
      obtain ⟨k2, t2⟩ := a
      unfold findTile at h
      split at h
      · rename_i heq
        simp [tileKeys, heq]
      · have hrest := ih h
        simp only [tileKeys, List.map_cons] at hrest ⊢
        exact List.mem_cons_of_mem _ hrest

/-- GetTile never drops an existing key. -/
theorem tileKeys_getTile_mono (s : FSparseHighDetailMap) (i k : ℕ)
    (h : k ∈ tileKeys s.Map) : k ∈ tileKeys (s.getTile i).1.Map := by
  unfold FSparseHighDetailMap.getTile
  split
  · exact h
  · unfold FSparseHighDetailMap.initRegion
    simp only [tileKeys, List.map_cons]
    exact List.mem_cons_of_mem _ h

/-- After GetTile the requested key is present. -/
theorem tileKeys_getTile_self (s : FSparseHighDetailMap) (i : ℕ) :
    i ∈ tileKeys (s.getTile i).1.Map := by
  unfold FSparseHighDetailMap.getTile
  split
  · rename_i t heq
    exact findTile_some_mem heq
  · unfold FSparseHighDetailMap.initRegion
    simp [tileKeys]

/-- Folding GetTile over a list of ids never drops an existing key. -/
theorem tileKeys_fold_mono (ids : List ℕ) (s : FSparseHighDetailMap) (k : ℕ)
    (h : k ∈ tileKeys s.Map) :
    k ∈ tileKeys (ids.foldl (fun acc i => (acc.getTile i).1) s).Map := by
  induction ids generalizing s with
  | nil => exact h
  | cons i rest ih => exact ih _ (tileKeys_getTile_mono s i k h)

/-- After folding GetTile over a list of ids, every id of the list is
present. -/
theorem tileKeys_fold_mem (ids : List ℕ) (s : FSparseHighDetailMap) (k : ℕ)
    (h : k ∈ ids) :
    k ∈ tileKeys (ids.foldl (fun acc i => (acc.getTile i).1) s).Map := by
  induction ids generalizing s with
  | nil => cases h
  | cons i rest ih =>
      rcases List.mem_cons.1 h with rfl | hmem
      · exact tileKeys_fold_mono rest _ k (tileKeys_getTile_self s k)
      · exact ih _ hmem

/-- Key-set characterization of the active map after LoadTilesAtPosition:
exactly the tile ids of the window. -/
theorem load_keys_iff (s : FSparseHighDetailMap) (Position : FDVector)
    (RadiusX RadiusY : ℚ) (k : ℕ) :
    k ∈ tileKeys (s.loadTilesAtPosition Position RadiusX RadiusY).Map ↔
      k ∈ s.windowIds Position RadiusX RadiusY := by
  simp only [FSparseHighDetailMap.loadTilesAtPosition]
  constructor
  · intro h
    rcases mem_tileKeys.1 h with ⟨t, ht⟩
    exact of_decide_eq_true (List.mem_filter.1 ht).2
  · intro h
    have h1 := tileKeys_fold_mem (s.windowIds Position RadiusX RadiusY) s k h
    rcases mem_tileKeys.1 h1 with ⟨t, ht⟩
    exact mem_tileKeys.2 ⟨t, List.mem_filter.2 ⟨ht, decide_eq_true h⟩⟩

/-- The clamped pixel index is always inside an initialized raster. -/
theorem pixelIndex_lt (h : FHeightMapData) (Position : FDVector)
    (hx : 0 < h.Size_X) (hy : 0 < h.Size_Y) :
    h.pixelIndex Position < h.Size_X * h.Size_Y := by
  unfold FHeightMapData.pixelIndex
  have hcy := min_le_right
    (⌊(Position.Y - h.Offset.Y) / h.WorldSize.Y * h.Size_Y⌋).toNat (h.Size_Y - 1)
  have hcx := min_le_right
    (⌊(Position.X - h.Offset.X) / h.WorldSize.X * h.Size_X⌋).toNat (h.Size_X - 1)
  have hmul := mul_le_mul_right' hcy h.Size_X
  have hsub := Nat.sub_one_mul h.Size_Y h.Size_X
  have hle : h.Size_X ≤ h.Size_Y * h.Size_X := Nat.le_mul_of_pos_left _ hy
  have hcomm : h.Size_X * h.Size_Y = h.Size_Y * h.Size_X := Nat.mul_comm _ _
  omega

/- ------------------------------------------------------------------ -/
/- Claim theorems                                                      -/
/- ------------------------------------------------------------------ -/

/-- C1: for every pair of tile coordinates (x, y) in the valid 32-bit range
and positive tile size, composing the forward id packing with the inverse
position mapping returns the original coordinates:
GetVectorTileId(GetTilePosition(GetTileId(x, y))) = (x, y). -/
theorem tile_id_round_trip (s : FSparseHighDetailMap) (x y : ℕ)
    (hx : x < 2 ^ 32) (hy : y < 2 ^ 32) (hts : 0 < s.TileSize) :
    s.getVectorTileId (s.getTilePosition (getTileId x y)) = ((x : ℤ), (y : ℤ)) := by
  have hxy : getTileId x y = x * 2 ^ 32 + y := by
    unfold getTileId
    rw [Nat.mod_eq_of_lt hx, Nat.mod_eq_of_lt hy]
  have hdiv : (x * 2 ^ 32 + y) / 2 ^ 32 = x := by
    rw [Nat.mul_comm x, Nat.mul_add_div (by positivity), Nat.div_eq_of_lt hy, Nat.add_zero]
  have hmod : (x * 2 ^ 32 + y) % 2 ^ 32 = y := by
    rw [Nat.mul_comm x, Nat.mul_add_mod, Nat.mod_eq_of_lt hy]
  unfold FSparseHighDetailMap.getVectorTileId FSparseHighDetailMap.getTilePosition
  rw [hxy, hdiv, hmod]
  simp only [Prod.mk.injEq]
  constructor <;>
    · rw [mul_div_cancel_right₀ _ (ne_of_gt hts)]
      exact Int.floor_natCast _

unseal Rat.sub Rat.add Rat.mul Rat.inv in
theorem tile_id_round_trip_witness :
    3 < 2 ^ 32 ∧ 7 < 2 ^ 32 ∧ 0 < sampleMap.TileSize ∧
    sampleMap.getVectorTileId (sampleMap.getTilePosition (getTileId 3 7)) =
      ((3 : ℤ), (7 : ℤ)) :=
  ⟨by decide, by decide, by decide,
   tile_id_round_trip sampleMap 3 7 (by decide) (by decide) (by decide)⟩

/-- C2: for every tile T, parsing the text produced by T.ToString yields a
tile with the same origin and the same multiset of (position, radius)
particle pairs (here recovered exactly, which is within any tolerance). -/
theorem tile_serialization_round_trip (t : FDenseTile) :
    ∃ t2, FDenseTile.modifyDataFromString t.toString = some t2 ∧
      t2.TilePosition = t.TilePosition ∧
      (↑(t2.Particles.map fun p => (p.Position, p.Radius)) : Multiset (FDVector × ℚ)) =
        ↑(t.Particles.map fun p => (p.Position, p.Radius)) := by
  refine ⟨t, ?_, rfl, rfl⟩
  simp [FDenseTile.toString, FDenseTile.modifyDataFromString, parse_map_toString]

/-- C3: GetParticlesInRadius returns exactly the particles whose Euclidean
distance to the query point is at most the radius (over ℚ: the radius is
nonnegative and the squared distance is at most its square), as a sublist of
the storage order, without duplicating any stored particle, and it is empty
when no particle qualifies. -/
theorem tile_radius_query_correct (t : FDenseTile) (Position : FDVector) (Radius : ℚ) :
    (t.getParticlesInRadius Position Radius).Sublist t.Particles ∧
    (∀ p : FParticle, p ∈ t.getParticlesInRadius Position Radius ↔
        p ∈ t.Particles ∧ 0 ≤ Radius ∧ dist2 p.Position Position ≤ Radius * Radius) ∧
    (∀ p : FParticle,
        (t.getParticlesInRadius Position Radius).count p ≤ t.Particles.count p) ∧
    ((∀ p ∈ t.Particles, ¬(0 ≤ Radius ∧ dist2 p.Position Position ≤ Radius * Radius)) →
      t.getParticlesInRadius Position Radius = []) := by
  refine ⟨List.filter_sublist _, ?_, ?_, ?_⟩
  · intro p
    simp [FDenseTile.getParticlesInRadius, withinRadius, List.mem_filter, and_assoc]
  · intro p
    exact (List.filter_sublist _).count_le p
  · intro hall
    unfold FDenseTile.getParticlesInRadius
    rw [List.filter_eq_nil_iff]
    intro p hp
    simp only [withinRadius, decide_eq_true_eq]
    exact hall p hp

unseal Rat.sub Rat.add Rat.mul Rat.inv in
theorem tile_radius_query_correct_witness :
    ({ Particles := [sampleParticle], TilePosition := ⟨0, 0, 0⟩ } :
        FDenseTile).getParticlesInRadius ⟨1, 2, 3⟩ 1 = [sampleParticle] ∧
    ((({ Particles := [sampleParticle], TilePosition := ⟨0, 0, 0⟩ } :
        FDenseTile).getParticlesInRadius ⟨1, 2, 3⟩ 1).Sublist [sampleParticle] ∧ True) :=
  ⟨by decide,
   (tile_radius_query_correct
      { Particles := [sampleParticle], TilePosition := ⟨0, 0, 0⟩ } ⟨1, 2, 3⟩ 1).1,
   trivial⟩

/-- C4: after LoadTilesAtPosition(pos, rx, ry), the set of tile ids in the
active map equals exactly the set of tile ids of the window derived from
(pos, rx, ry): no tile outside the window remains and none inside is
missing. -/
theorem window_convergence (s : FSparseHighDetailMap) (Position : FDVector)
    (RadiusX RadiusY : ℚ) (k : ℕ) :
    k ∈ tileKeys (s.loadTilesAtPosition Position RadiusX RadiusY).Map ↔
      k ∈ s.windowIds Position RadiusX RadiusY :=
  load_keys_iff s Position RadiusX RadiusY k

/-- C5: every tile present in the active map before LoadTilesAtPosition
whose id falls outside the new window is afterwards absent from the active
map and present in the write-back buffer. -/
theorem eviction_correct (s : FSparseHighDetailMap) (Position : FDVector)
    (RadiusX RadiusY : ℚ) (k : ℕ)
    (hin : k ∈ tileKeys s.Map)
    (hout : k ∉ s.windowIds Position RadiusX RadiusY) :
    k ∉ tileKeys (s.loadTilesAtPosition Position RadiusX RadiusY).Map ∧
    k ∈ tileKeys (s.loadTilesAtPosition Position RadiusX RadiusY).TilesToWrite := by
  constructor
  · intro hk
    exact hout ((load_keys_iff s Position RadiusX RadiusY k).1 hk)
  · have h1 := tileKeys_fold_mono (s.windowIds Position RadiusX RadiusY) s k hin
    rcases mem_tileKeys.1 h1 with ⟨t, ht⟩
    simp only [FSparseHighDetailMap.loadTilesAtPosition]
    refine mem_tileKeys.2 ⟨t, List.mem_append.2 (Or.inr (List.mem_filter.2 ⟨ht, ?_⟩))⟩
    simp [hout]

unseal Rat.sub Rat.add Rat.mul Rat.inv in
theorem eviction_correct_witness :
    idOfCoord (5, 5) ∈ tileKeys sampleMap.Map ∧
    idOfCoord (5, 5) ∉ sampleMap.windowIds ⟨0, 0, 0⟩ 1 1 ∧
    (idOfCoord (5, 5) ∉ tileKeys (sampleMap.loadTilesAtPosition ⟨0, 0, 0⟩ 1 1).Map ∧
     idOfCoord (5, 5) ∈ tileKeys (sampleMap.loadTilesAtPosition ⟨0, 0, 0⟩ 1 1).TilesToWrite) :=
  ⟨by decide, by decide,
   eviction_correct sampleMap ⟨0, 0, 0⟩ 1 1 (idOfCoord (5, 5)) (by decide) (by decide)⟩

/-- C6: GetTile on a coordinate absent from the active map creates and
inserts the tile (the map grows by exactly one entry), returns a tile whose
origin is GetTilePosition of the tile id, and afterwards the lookup succeeds
(absence is never reported). -/
theorem get_tile_read_or_create (s : FSparseHighDetailMap) (TileId : ℕ)
    (habs : findTile s.Map TileId = none) :
    (s.getTile TileId).1.Map.length = s.Map.length + 1 ∧
    (s.getTile TileId).2.TilePosition = s.getTilePosition TileId ∧
    findTile (s.getTile TileId).1.Map TileId = some (s.getTile TileId).2 := by
  simp only [FSparseHighDetailMap.getTile, habs]
  refine ⟨rfl, rfl, ?_⟩
  simp [FSparseHighDetailMap.initRegion, findTile]

unseal Rat.sub Rat.add Rat.mul Rat.inv in
theorem get_tile_read_or_create_witness :
    findTile sampleMap.Map 0 = none ∧
    ((sampleMap.getTile 0).1.Map.length = sampleMap.Map.length + 1 ∧
     (sampleMap.getTile 0).2.TilePosition = sampleMap.getTilePosition 0 ∧
     findTile (sampleMap.getTile 0).1.Map 0 = some (sampleMap.getTile 0).2) :=
  ⟨by decide, get_tile_read_or_create sampleMap 0 (by decide)⟩

/-- C7: on an initialized heightfield (nonzero raster dimensions, pixel
buffer of matching length), GetHeight samples a pixel for every world XY
position, including positions outside the raster's world region: the clamped
access never falls out of bounds. -/
theorem get_height_total (h : FHeightMapData) (Position : FDVector)
    (hx : 0 < h.Size_X) (hy : 0 < h.Size_Y)
    (hlen : h.Pixels.length = h.Size_X * h.Size_Y) :
    (h.getHeight? Position).isSome = true := by
  unfold FHeightMapData.getHeight?
  have hidx : h.pixelIndex Position < h.Pixels.length := by
    rw [hlen]
    exact pixelIndex_lt h Position hx hy
  rw [List.getElem?_eq_getElem hidx]
  rfl

unseal Rat.sub Rat.add Rat.mul Rat.inv in
theorem get_height_total_witness :
    0 < sampleHeightmap.Size_X ∧ 0 < sampleHeightmap.Size_Y ∧
    sampleHeightmap.Pixels.length = sampleHeightmap.Size_X * sampleHeightmap.Size_Y ∧
    (sampleHeightmap.getHeight? ⟨100, -50, 0⟩).isSome = true :=
  ⟨by decide, by decide, by decide,
   get_height_total sampleHeightmap ⟨100, -50, 0⟩ (by decide) (by decide) (by decide)⟩

/-- C8: an input text containing a malformed particle line (wrong field count
or an unparsable field) makes ModifyDataFromString reject the whole tile: the
parse fails and no partially-populated tile is produced. -/
theorem parse_failure_atomic (originLine : List RawField)
    (lines : List (List RawField)) (l : List RawField) (hl : l ∈ lines)
    (hbad : l.length ≠ 4 ∨ RawField.bad ∈ l) :
    FDenseTile.modifyDataFromString (originLine :: lines) = none := by
  have hnone := modify_malformed_line l hbad
  have hred : FDenseTile.modifyDataFromString (originLine :: lines) =
      match originLine with
      | [RawField.num x, RawField.num y, RawField.num z] =>
          (parseParticleLines lines).map
            fun ps => { Particles := ps, TilePosition := ⟨x, y, z⟩ }
      | _ => none := rfl
  rw [hred]
  split
  · rw [parse_eq_none_of_mem hl hnone]
    rfl
  · rfl

theorem parse_failure_atomic_witness :
    [RawField.bad] ∈ [[RawField.bad]] ∧
    FDenseTile.modifyDataFromString
      ([RawField.num 0, RawField.num 0, RawField.num 0] :: [[RawField.bad]]) = none :=
  ⟨by decide,
   parse_failure_atomic [RawField.num 0, RawField.num 0, RawField.num 0]
     [[RawField.bad]] [RawField.bad] (by decide) (Or.inr (by decide))⟩

/-- C9: Update stores the requested focus position and radii into the shared
requested-focus value and changes nothing else: the active map, the
write-back buffer and every other component of the state are unchanged. -/
theorem update_frame_effect (s : FSparseHighDetailMap) (Position : FDVector)
    (RadiusX RadiusY : ℚ) :
    (s.update Position RadiusX RadiusY).PositionToUpdate =
      ⟨Position, RadiusX, RadiusY⟩ ∧
    (s.update Position RadiusX RadiusY).Map = s.Map ∧
    (s.update Position RadiusX RadiusY).TilesToWrite = s.TilesToWrite ∧
    (s.update Position RadiusX RadiusY).Tile0Position = s.Tile0Position ∧
    (s.update Position RadiusX RadiusY).TileSize = s.TileSize ∧
    (s.update Position RadiusX RadiusY).ParticleSize = s.ParticleSize ∧
    (s.update Position RadiusX RadiusY).Depth = s.Depth ∧
    (s.update Position RadiusX RadiusY).Heightmap = s.Heightmap :=
  ⟨rfl, rfl, rfl, rfl, rfl, rfl, rfl, rfl⟩

/-- C10: parsing the single line produced by FParticle::ToString yields a
particle with the same position and the same radius (here recovered
exactly). -/
theorem particle_serialization_round_trip (p : FParticle) :
    FParticle.modifyDataFromString p.toString = some p := rfl

end Carla
